import Mathlib

/-!
Verification of the bitcoin-fee-model crate against its specification.

Shallow embedding notes:
* `f32` values are modelled as `ℚ` (exact arithmetic); the properties checked
  here are structural or exact, not dependent on rounding.
* Rust `Result<T, Error>` becomes `Except Error T`; panicking indexing is
  modelled by total access with an explicit rectangularity predicate on the
  theorems, matching the invariant maintained by every `Matrix` constructor.
* `HashMap<String, f32>` becomes `String → Option ℚ`.
-/

namespace BitcoinFeeModel

/-- `type Size = (usize, usize)` from src/matrix.rs. -/
abbrev Size := Nat × Nat

/-- `Matrix(Vec<Vec<f32>>)` from src/matrix.rs (dynamic-shape version). -/
abbrev Matrix := List (List ℚ)

/-- `enum Error` from src/error.rs. The `Serde` variant carries the message. -/
inductive Error where
  | IncompatibleDotMatrix (a1 a2 : Size)
  | IncompatibleAddMatrix (a1 a2 : Size)
  | MissingMeanData (s : String)
  | MissingStdData (s : String)
  | Serde (s : String)
deriving DecidableEq, Repr

namespace Matrix

/-- Total view of the panicking Rust indexing `self[i][j]` (out of range reads
give `0`; the theorems restrict to in-range indices of rectangular matrices,
which is where the Rust code is defined). -/
def entry (A : Matrix) (i j : Nat) : ℚ :=
  (A.getD i []).getD j 0

/-- `Matrix::size`: `(rows, length of row 0)` (0 columns when no rows). -/
def size (A : Matrix) : Size :=
  let a := A.length
  let b := if a > 0 then (A.headD []).length else 0
  (a, b)

/-- `Matrix::new(size)`: `vec![vec![0.0; size.1]; size.0]`. -/
def new (s : Size) : Matrix :=
  List.replicate s.1 (List.replicate s.2 (0 : ℚ))

/-- `Matrix::from_array(vec)`: a single-row matrix. -/
def from_array (v : List ℚ) : Matrix := [v]

/-- `Matrix::_transpose`: fills `new[k][i] = self[i][k]` for
`i < size.0, k < size.1` over `Matrix::new((size.1, size.0))`. -/
def _transpose (A : Matrix) : Matrix :=
  (List.range A.size.2).map fun k => (List.range A.size.1).map fun i => entry A i k

/-- `Matrix::dot`: shape check, then the triple loop with `acc += self[i][k] *
other[k][j]`. -/
def dot (A B : Matrix) : Except Error Matrix :=
  let size_self := A.size
  let size_other := B.size
  if size_self.2 ≠ size_other.1 then
    .error (.IncompatibleDotMatrix size_self size_other)
  else
    .ok ((List.range size_self.1).map fun i =>
      (List.range size_other.2).map fun j =>
        (List.range size_self.2).foldl (fun acc k => acc + entry A i k * entry B k j) 0)

/-- `Matrix::add`: the second operand is a slice, given shape
`(1, other.len())`; on success `result[0][i] = self[0][i] + other[i]`. -/
def add (A : Matrix) (other : List ℚ) : Except Error Matrix :=
  let size_self := A.size
  let size_other : Size := (1, other.length)
  if size_self ≠ size_other then
    .error (.IncompatibleAddMatrix size_self size_other)
  else
    .ok [(List.range size_self.2).map fun i => entry A 0 i + other.getD i 0]

/-- `Matrix::relu(alpha)`: entries strictly below zero are scaled by `alpha`,
the rest are copied. -/
def relu (A : Matrix) (alpha : ℚ) : Matrix :=
  (List.range A.size.1).map fun i => (List.range A.size.2).map fun j =>
    if entry A i j < 0 then entry A i j * alpha else entry A i j

/-- Rectangularity: every row has the length reported by `size`. This is the
invariant every `Matrix` constructor of the crate maintains; outside of it the
Rust loops would panic on short rows. -/
def IsRect (A : Matrix) : Prop :=
  ∀ r ∈ A, r.length = A.size.2

instance : DecidablePred IsRect := fun A =>
  inferInstanceAs (Decidable (∀ r ∈ A, r.length = A.size.2))

end Matrix

/-- `FieldsDescribe` from src/model_data.rs; the two `HashMap<String, f32>`
are modelled as lookup functions. -/
structure FieldsDescribe where
  mean : String → Option ℚ
  std : String → Option ℚ
  fields : List String

/-- `Weights` from src/model_data.rs. -/
structure Weights where
  l0_bias : List ℚ
  l0_kernel : Matrix
  l1_bias : List ℚ
  l1_kernel : Matrix
  l2_bias : List ℚ
  l2_kernel : Matrix

/-- `ModelData` from src/model_data.rs. The Rust struct field `norm` is named
`norm_stats` here because the method `ModelData::norm` keeps the source name.
`alpha` is the activation slope carried by the compiled models (build.rs emits
it into every generated constructor); `predict` threads it to `relu`. -/
structure ModelData where
  norm_stats : FieldsDescribe
  weights : Weights
  alpha : ℚ

namespace ModelData

/-- Body of the per-field loop of `ModelData::norm`: read the input value
(defaulting to `0.0` when the field is absent), fetch std then mean (failing
with the corresponding missing-stat error), and return `(x - mean) / std`. -/
def normField (m : ModelData) (input : String → Option ℚ) (field : String) :
    Except Error ℚ :=
  let x := (input field).getD 0
  match m.norm_stats.std field with
  | none => .error (.MissingStdData field)
  | some std =>
    match m.norm_stats.mean field with
    | none => .error (.MissingMeanData field)
    | some mean => .ok ((x - mean) / std)

/-- The `for field in fields` loop of `ModelData::norm`, accumulating the
normalized values in order and aborting on the first missing stat. -/
def normLoop (m : ModelData) (input : String → Option ℚ) :
    List String → Except Error (List ℚ)
  | [] => .ok []
  | field :: rest => do
    let v ← m.normField input field
    let tail ← m.normLoop input rest
    .ok (v :: tail)

/-- `ModelData::norm`: normalize the input map along the model's ordered field
list into a single-row matrix. -/
def norm (m : ModelData) (input : String → Option ℚ) : Except Error Matrix := do
  let result ← m.normLoop input m.norm_stats.fields
  .ok (Matrix.from_array result)

/-- `ModelData::predict` from src/model_data.rs: three dense layers with the
leaky-relu activation after the first two, then `c2[0][0].max(1.0)`. (The
tree's model_data.rs spells the activation `relu()`; the matrix engine in
src/matrix.rs takes the slope argument, which the compiled models carry as
`alpha`, so it is threaded explicitly here.) -/
def predict (m : ModelData) (input : Matrix) : Except Error ℚ := do
  let a1 ← Matrix.dot input m.weights.l0_kernel
  let a2 ← Matrix.add a1 m.weights.l0_bias
  let a3 := Matrix.relu a2 m.alpha
  let b1 ← Matrix.dot a3 m.weights.l1_kernel
  let b2 ← Matrix.add b1 m.weights.l1_bias
  let b3 := Matrix.relu b2 m.alpha
  let c1 ← Matrix.dot b3 m.weights.l2_kernel
  let c2 ← Matrix.add c1 m.weights.l2_bias
  return max (Matrix.entry c2 0 0) 1

/-- Modelled from the spec: the forward pass exactly as §4.5 words it — the
result is `c[0][0]`, the raw regression value, with no activation and no floor
on the final layer. Used to compare `ModelData::predict` (the source) against
the spec's contract. -/
def specPredictRaw (m : ModelData) (input : Matrix) : Except Error ℚ := do
  let a1 ← Matrix.dot input m.weights.l0_kernel
  let a2 ← Matrix.add a1 m.weights.l0_bias
  let a3 := Matrix.relu a2 m.alpha
  let b1 ← Matrix.dot a3 m.weights.l1_kernel
  let b2 ← Matrix.add b1 m.weights.l1_bias
  let b3 := Matrix.relu b2 m.alpha
  let c1 ← Matrix.dot b3 m.weights.l2_kernel
  let c2 ← Matrix.add c1 m.weights.l2_bias
  return Matrix.entry c2 0 0

end ModelData

/-- Concrete two-field model used by the witnesses: field list `["a", "b"]`,
mean 1 and std 2 for both fields. -/
def wModel : ModelData where
  norm_stats :=
    { mean := fun f => if f = "a" ∨ f = "b" then some 1 else none
      std := fun f => if f = "a" ∨ f = "b" then some 2 else none
      fields := ["a", "b"] }
  weights :=
    { l0_bias := [0], l0_kernel := [[0]]
      l1_bias := [0], l1_kernel := [[0]]
      l2_bias := [0], l2_kernel := [[0]] }
  alpha := 0

namespace buildsrc

/-- `FieldsDescribe` from build.rs (mean/std maps only). -/
structure FieldsDescribe where
  mean : String → Option ℚ
  std : String → Option ℚ

/-- `Weights` from build.rs: biases as vectors, kernels as nested vectors. -/
structure Weights where
  l0_bias : List ℚ
  l0_kernel : List (List ℚ)
  l1_bias : List ℚ
  l1_kernel : List (List ℚ)
  l2_bias : List ℚ
  l2_kernel : List (List ℚ)

/-- `ModelData` from build.rs (the decoded candidate model record). -/
structure ModelData where
  norm_stats : FieldsDescribe
  weights : Weights
  fields : List String
  alpha : ℚ

/-- The fatal build-time configuration errors of `ModelData::into_src`
(spelled as panics in build.rs; a panic aborts the build, modelled as the
error branch). Both found sizes are reported. -/
inductive ConfigurationError where
  | HiddenSizeMismatch (found0 found1 : Nat)
  | MultiOutputUnsupported (found : Nat)
deriving DecidableEq, Repr

/-- The compiled-model constructor emitted by `ModelData::into_src`: the
dimensions, the field list, alpha, and the weight buffers embedded verbatim
(kernels flattened row-major, exactly the bytes of the source floats). -/
structure GeneratedModel where
  name : String
  i_size : Nat
  n_size : Nat
  o_size : Nat
  fields : List String
  alpha : ℚ
  l0_bias : List ℚ
  l0_kernel : List ℚ
  l1_bias : List ℚ
  l1_kernel : List ℚ
  l2_bias : List ℚ
  l2_kernel : List ℚ

/-- `ModelData::into_src` from build.rs: compute `I`, `N`, `O`, reject a
hidden-size mismatch or a non-scalar output, and emit the required sizes with
the generated constructor. -/
def ModelData.into_src (m : ModelData) (model_name : String) :
    Except ConfigurationError (List Nat × GeneratedModel) :=
  let i_size := m.fields.length
  let l0_size := m.weights.l0_bias.length
  let l1_size := m.weights.l1_bias.length
  let o_size := m.weights.l2_bias.length
  if l0_size ≠ l1_size then
    .error (.HiddenSizeMismatch l0_size l1_size)
  else if o_size ≠ 1 then
    .error (.MultiOutputUnsupported o_size)
  else
    .ok ([i_size, l0_size, o_size],
      { name := model_name
        i_size
        n_size := l0_size
        o_size
        fields := m.fields
        alpha := m.alpha
        l0_bias := m.weights.l0_bias
        l0_kernel := m.weights.l0_kernel.flatten
        l1_bias := m.weights.l1_bias
        l1_kernel := m.weights.l1_kernel.flatten
        l2_bias := m.weights.l2_bias
        l2_kernel := m.weights.l2_kernel.flatten })

end buildsrc

namespace serde

/-- Wire values of the CBOR container as far as the matrix codec observes
them: scalars (the raw f32 payloads, which the codec passes through untouched
and which are therefore modelled generically, covering negative zero and
subnormal bit patterns) and sequences. -/
inductive Wire (α : Type) where
  | num (x : α)
  | seq (elems : List (Wire α))

/-- The static-shape `Matrix<W, H>` of the serde path (matrix_serde.rs):
a flat row-major buffer, built by `Matrix::from_buffer`. -/
structure SMatrix (α : Type) where
  buffer : List α
deriving DecidableEq

/-- Modelled from the spec: the `Index` impl on the static-shape `Matrix` is
not under src/ (matrix_serde.rs only writes `&self[i]`); per the row-major
layout of the data model, row `i` is the `W`-long slice starting at `i * W`. -/
def SMatrix.row {α : Type} (W : Nat) (m : SMatrix α) (i : Nat) : List α :=
  (m.buffer.drop (i * W)).take W

/-- `impl Serialize for Matrix` (matrix_serde.rs lines 87-99): a sequence of
`H::size()` elements, element `i` being `&self[i]` — row `i`, itself
serialized as a sequence of scalars. -/
def serializeMatrix {α : Type} (W H : Nat) (m : SMatrix α) : Wire α :=
  .seq ((List.range H).map fun i => .seq ((SMatrix.row W m i).map Wire.num))

/-- Decoder-side errors of `MatrixVisitor::visit_seq`: the custom width and
height errors, and the serde type error raised by `next_element` when the
wire element has the wrong kind. -/
inductive DecodeErr where
  | invalidWidth (row expected found : Nat)
  | invalidHeight (expected found : Nat)
  | typeError
deriving DecidableEq, Repr

/-- Reading one scalar (`next_element::<f32>()`): anything but a scalar is a
serde type error. -/
def toNum {α : Type} : Wire α → Except DecodeErr α
  | .num x => .ok x
  | .seq _ => .error .typeError

/-- Reading the rows of a height-`H` (`H ≠ 1`) matrix in order: each element
must be a row of scalars whose width matches `W` (`fetch_row`, reporting the
offending row index). -/
def readRows {α : Type} (W : Nat) :
    List (Wire α) → Nat → Except DecodeErr (List (List α))
  | [], _ => .ok []
  | e :: rest, idx =>
    match e with
    | .num _ => .error .typeError
    | .seq r => do
      let vals ← r.mapM toNum
      if vals.length ≠ W then .error (.invalidWidth idx W vals.length)
      else do
        let tail ← readRows W rest (idx + 1)
        .ok (vals :: tail)

/-- `MatrixVisitor::visit_seq` (matrix_serde.rs lines 29-75): when the target
height is 1 the elements are read as bare scalars (the flat encoding), else
as rows; widths are checked per row and the row count against `H`. -/
def visit_seq {α : Type} (W H : Nat) (w : Wire α) : Except DecodeErr (SMatrix α) :=
  match w with
  | .num _ => .error .typeError
  | .seq elems =>
    if H = 1 then
      match elems.mapM toNum with
      | .error e => .error e
      | .ok v =>
        if v.length ≠ W then .error (.invalidWidth 0 W v.length)
        else .ok ⟨v⟩
    else
      match readRows W elems 0 with
      | .error e => .error e
      | .ok rows =>
        if rows.length ≠ H then .error (.invalidHeight H rows.length)
        else .ok ⟨rows.flatten⟩

end serde

namespace fee_bucket

/-- The loop of `create_buckets_limits` (src/fee_bucket.rs lines 26-38):
while `current < upper`, multiply by the increment and push. The Rust loop is
unbounded (for increment percent 0 it would never terminate), so `fuel`
bounds the modelled iteration count; the theorems show the result is
fuel-independent once the loop has room to finish. (For the shipped arguments
the multiplier is 1.5, and 1.5^k is exactly representable in f64 for k up to
16, so the exact rational loop coincides with the f64 loop.) -/
def go (increment upper : ℚ) : ℚ → Nat → List ℚ
  | _, 0 => []
  | current, fuel + 1 =>
    if upper ≤ current then []
    else
      let c := current * increment
      c :: go increment upper c fuel

/-- `create_buckets_limits(increment_percent, upper_limit)` from
src/fee_bucket.rs: the increment is `1 + increment_percent / 100` and the
running value starts at `1.0`. -/
def create_buckets_limits (increment_percent : Nat) (upper_limit : ℚ)
    (fuel : Nat) : List ℚ :=
  go (1 + (increment_percent : ℚ) / 100) upper_limit 1 fuel

/-- `FeeBuckets::get`: count each rate into the first bucket whose limit
exceeds it (the last bucket when none does), starting from all-zero counts. -/
def get (buckets_limits : List ℚ) (rates : List ℚ) : List Nat :=
  rates.foldl
    (fun buckets rate =>
      let index :=
        match buckets_limits.findIdx? (fun e => decide (rate < e)) with
        | some i => i
        | none => buckets_limits.length - 1
      buckets.set index (buckets.getD index 0 + 1))
    (List.replicate buckets_limits.length 0)

end fee_bucket

/-- The `b0..b15` feature reads of `FeeModel::estimate_with_buckets`
(src/lib.rs lines 60-62): `fee_buckets[i]` for `i in 0..=15`; the panicking
slice index is modelled as a fallible read, so the result is `none` exactly
when the read would panic. Returns the sixteen bucket features. -/
def FeeModel.bucketInputs (fee_buckets : List Nat) :
    Option (List (String × ℚ)) :=
  (List.range 16).mapM fun i =>
    (fee_buckets[i]?).map fun (v : Nat) => ("b" ++ toString i, (v : ℚ))

namespace Matrix

lemma size_fst (A : Matrix) : A.size.1 = A.length := rfl

lemma getD_map_range (n : Nat) (f : Nat → List ℚ) (i : Nat) :
    ((List.range n).map f).getD i [] = if i < n then f i else [] := by
  rw [List.getD_eq_getElem?_getD, List.getElem?_map]
  by_cases h : i < n
  · simp [List.getElem?_range, h]
  · rw [List.getElem?_eq_none (by simpa using Nat.le_of_not_lt h)]
    simp [h]

lemma entry_mk (n m : Nat) (g : Nat → Nat → ℚ) (i j : Nat) (hi : i < n) (hj : j < m) :
    entry ((List.range n).map fun i => (List.range m).map (g i)) i j = g i j := by
  unfold entry
  rw [getD_map_range, if_pos hi, List.getD_eq_getElem?_getD, List.getElem?_map,
    List.getElem?_range hj]
  rfl

lemma size_mk (n : Nat) (f : Nat → List ℚ) :
    size ((List.range n).map f) = (n, if 0 < n then (f 0).length else 0) := by
  unfold size
  cases n with
  | zero => rfl
  | succ n =>
    have h0 : (List.range (n + 1)).head? = some 0 := by
      rw [List.range_succ_eq_map]
      rfl
    simp [h0]

lemma size_mk2 (n m : Nat) (g : Nat → Nat → ℚ) :
    size ((List.range n).map fun i => (List.range m).map (g i))
      = (n, if 0 < n then m else 0) := by
  rw [size_mk]
  simp

lemma map_range_getD (r : List ℚ) :
    (List.range r.length).map (fun j => r.getD j 0) = r := by
  induction r with
  | nil => rfl
  | cons x xs ih =>
    rw [List.length_cons, List.range_succ_eq_map, List.map_cons, List.map_map]
    refine congrArg₂ List.cons rfl ?_
    exact ih

lemma map_range_getD_add (r b : List ℚ) (h : r.length = b.length) :
    (List.range b.length).map (fun i => r.getD i 0 + b.getD i 0)
      = List.zipWith (· + ·) r b := by
  induction r generalizing b with
  | nil =>
    cases b with
    | nil => rfl
    | cons y ys => simp at h
  | cons x xs ih =>
    cases b with
    | nil => simp at h
    | cons y ys =>
      have h' : xs.length = ys.length := by simpa using h
      rw [List.length_cons, List.range_succ_eq_map, List.map_cons, List.map_map,
        List.zipWith_cons_cons]
      refine congrArg₂ List.cons rfl ?_
      exact ih ys h'

lemma relu_size (A : Matrix) (alpha : ℚ) : size (relu A alpha) = A.size := by
  unfold relu
  rw [size_mk2]
  cases A with
  | nil => rfl
  | cons r rs => simp [size]

lemma foldl_add_eq_sum (f : Nat → ℚ) : ∀ (l : List Nat) (c : ℚ),
    l.foldl (fun acc k => acc + f k) c = c + (l.map f).sum := by
  intro l
  induction l with
  | nil => intro c; simp
  | cons a t ih => intro c; simp [ih, add_assoc]

/-- On compatible shapes `dot` succeeds, each entry being the sum of the
products along the inner dimension. -/
lemma dot_ok (A B : Matrix) (hc : A.size.2 = B.size.1) :
    A.dot B = .ok ((List.range A.size.1).map fun i =>
      (List.range B.size.2).map fun j =>
        ((List.range A.size.2).map fun k => entry A i k * entry B k j).sum) := by
  unfold dot
  rw [if_neg (by simp [hc])]
  refine congrArg Except.ok ?_
  refine List.map_congr_left fun i _ => ?_
  refine List.map_congr_left fun j _ => ?_
  rw [foldl_add_eq_sum, zero_add]

end Matrix

/-- Reduction lemma for the Except monad bind on ok. -/
lemma ok_bind {ε α β : Type} (a : α) (f : α → Except ε β) :
    (Except.ok a >>= f) = f a := rfl

/-- Reduction lemma for the Except monad bind on error. -/
lemma error_bind {ε α β : Type} (e : ε) (f : α → Except ε β) :
    ((Except.error e : Except ε α) >>= f) = .error e := rfl

/-- Reduction lemma for Except.map on ok. -/
lemma map_ok {ε α β : Type} (f : α → β) (a : α) :
    Except.map f (Except.ok a : Except ε α) = .ok (f a) := rfl

/-- Reduction lemma for Except.map on error. -/
lemma map_error {ε α β : Type} (f : α → β) (e : ε) :
    Except.map f (Except.error e : Except ε α) = .error e := rfl

namespace ModelData

lemma normField_ok_iff (m : ModelData) (input : String → Option ℚ) (f : String) :
    (∃ v, m.normField input f = .ok v) ↔
      (m.norm_stats.std f).isSome ∧ (m.norm_stats.mean f).isSome := by
  unfold normField
  cases hs : m.norm_stats.std f with
  | none => simp
  | some s =>
    cases hm : m.norm_stats.mean f with
    | none => simp
    | some mu => simp

lemma normField_error (m : ModelData) (input : String → Option ℚ) (f : String)
    (e : Error) (h : m.normField input f = .error e) :
    (m.norm_stats.std f = none ∧ e = .MissingStdData f) ∨
      (m.norm_stats.mean f = none ∧ e = .MissingMeanData f) := by
  unfold normField at h
  cases hs : m.norm_stats.std f with
  | none =>
    rw [hs] at h
    exact Or.inl ⟨rfl, by cases h; rfl⟩
  | some s =>
    rw [hs] at h
    cases hm : m.norm_stats.mean f with
    | none =>
      rw [hm] at h
      exact Or.inr ⟨rfl, by cases h; rfl⟩
    | some mu =>
      rw [hm] at h
      cases h

lemma normLoop_ok_length (m : ModelData) (input : String → Option ℚ) :
    ∀ (l : List String) (r : List ℚ),
      m.normLoop input l = .ok r → r.length = l.length := by
  intro l
  induction l with
  | nil =>
    intro r h
    simp only [normLoop] at h
    cases h
    rfl
  | cons g t ih =>
    intro r h
    simp only [normLoop] at h
    cases hv : m.normField input g with
    | error e => rw [hv, error_bind] at h; cases h
    | ok v =>
      rw [hv, ok_bind] at h
      cases ht : m.normLoop input t with
      | error e => rw [ht, error_bind] at h; cases h
      | ok tail =>
        rw [ht, ok_bind] at h
        cases h
        simp [ih tail ht]

lemma normLoop_ok_get (m : ModelData) (input : String → Option ℚ) :
    ∀ (l : List String) (r : List ℚ), m.normLoop input l = .ok r →
      ∀ (i : Nat) (f : String), l[i]? = some f →
        ∃ v, m.normField input f = .ok v ∧ r[i]? = some v := by
  intro l
  induction l with
  | nil => intro r h i f hf; simp at hf
  | cons g t ih =>
    intro r h i f hf
    simp only [normLoop] at h
    cases hv : m.normField input g with
    | error e => rw [hv, error_bind] at h; cases h
    | ok v =>
      rw [hv, ok_bind] at h
      cases ht : m.normLoop input t with
      | error e => rw [ht, error_bind] at h; cases h
      | ok tail =>
        rw [ht, ok_bind] at h
        cases h
        cases i with
        | zero =>
          have : g = f := by simpa using hf
          subst this
          exact ⟨v, hv, by simp⟩
        | succ i =>
          have hf' : t[i]? = some f := by simpa using hf
          obtain ⟨w, hw, hr⟩ := ih tail ht i f hf'
          exact ⟨w, hw, by simpa using hr⟩

lemma normLoop_error (m : ModelData) (input : String → Option ℚ) :
    ∀ (l : List String) (e : Error), m.normLoop input l = .error e →
      ∃ f ∈ l, m.normField input f = .error e := by
  intro l
  induction l with
  | nil => intro e h; simp only [normLoop] at h; cases h
  | cons g t ih =>
    intro e h
    simp only [normLoop] at h
    cases hv : m.normField input g with
    | error e0 =>
      rw [hv, error_bind] at h
      cases h
      exact ⟨g, List.mem_cons_self g t, hv⟩
    | ok v =>
      rw [hv, ok_bind] at h
      cases ht : m.normLoop input t with
      | error e0 =>
        rw [ht, error_bind] at h
        cases h
        obtain ⟨f, hm, he⟩ := ih e ht
        exact ⟨f, List.mem_cons_of_mem g hm, he⟩
      | ok tail => rw [ht, ok_bind] at h; cases h

lemma normLoop_ok_exists (m : ModelData) (input : String → Option ℚ) :
    ∀ (l : List String),
      (∃ r, m.normLoop input l = .ok r) ↔
        ∀ f ∈ l, ∃ v, m.normField input f = .ok v := by
  intro l
  induction l with
  | nil => simp [normLoop]
  | cons g t ih =>
    constructor
    · rintro ⟨r, h⟩ f hf
      simp only [normLoop] at h
      cases hv : m.normField input g with
      | error e => rw [hv, error_bind] at h; cases h
      | ok v =>
        rw [hv, ok_bind] at h
        cases ht : m.normLoop input t with
        | error e => rw [ht, error_bind] at h; cases h
        | ok tail =>
          rcases List.mem_cons.mp hf with rfl | hmem
          · exact ⟨v, hv⟩
          · exact (ih.mp ⟨tail, ht⟩) f hmem
    · intro hall
      obtain ⟨v, hv⟩ := hall g (List.mem_cons_self g t)
      obtain ⟨tail, ht⟩ := ih.mpr fun f hf => hall f (List.mem_cons_of_mem g hf)
      exact ⟨v :: tail, by simp only [normLoop]; rw [hv, ok_bind, ht, ok_bind]⟩

lemma except_dichotomy {ε α : Type} (x : Except ε α) :
    (∃ e, x = .error e) ∨ (∃ a, x = .ok a) := by
  cases x with
  | error e => exact Or.inl ⟨e, rfl⟩
  | ok a => exact Or.inr ⟨a, rfl⟩

end ModelData

/-- Claim C3: `Matrix::add` succeeds exactly when the operand's shape equals
the bias slice's shape `(1, other.len())`, returning the element-wise sum (of
the same shape, a single row); otherwise it fails with the typed
`IncompatibleAddMatrix` error carrying both shapes. -/
theorem add_spec (A : Matrix) (bias : List ℚ) :
    Matrix.add A bias =
      if Matrix.size A = (1, bias.length)
      then .ok [List.zipWith (· + ·) (A.headD []) bias]
      else .error (.IncompatibleAddMatrix (Matrix.size A) (1, bias.length)) := by
  unfold Matrix.add
  by_cases h : Matrix.size A = (1, bias.length)
  · rw [if_pos h, if_neg (by simp [h])]
    obtain ⟨r, rfl⟩ : ∃ r, A = [r] := by
      have hl : A.length = 1 := by
        have := congrArg Prod.fst h
        simpa [Matrix.size_fst] using this
      exact List.length_eq_one.mp hl
    have hr : r.length = bias.length := by
      have := congrArg Prod.snd h
      simpa [Matrix.size] using this
    have hsz : Matrix.size [r] = (1, r.length) := by simp [Matrix.size]
    rw [hsz]
    refine congrArg Except.ok (congrArg (fun l => [l]) ?_)
    have hentry : ∀ i : ℕ, Matrix.entry [r] 0 i = r.getD i 0 := fun i => rfl
    calc (List.range r.length).map (fun i => Matrix.entry [r] 0 i + bias.getD i 0)
        = (List.range bias.length).map (fun i => r.getD i 0 + bias.getD i 0) := by
          simp only [hentry]
          rw [hr]
      _ = List.zipWith (· + ·) r bias := Matrix.map_range_getD_add r bias hr
      _ = List.zipWith (· + ·) ([r].headD []) bias := rfl
  · rw [if_neg h, if_pos (by simpa using h)]

/-- Claim C5: `Matrix::relu(alpha)` keeps the shape, scales every entry
strictly below zero by `alpha`, and keeps non-negative entries unchanged;
hence `relu(A, 0)` zeroes negative entries exactly and keeps the rest, and
`relu(A, 1)` is the identity (on rectangular matrices, the invariant of the
type). -/
theorem relu_spec (A : Matrix) (alpha : ℚ) (hA : Matrix.IsRect A) :
    Matrix.size (Matrix.relu A alpha) = Matrix.size A ∧
    (∀ i j, i < (Matrix.size A).1 → j < (Matrix.size A).2 →
      Matrix.entry (Matrix.relu A alpha) i j =
        if Matrix.entry A i j < 0 then Matrix.entry A i j * alpha
        else Matrix.entry A i j) ∧
    (∀ i j, i < (Matrix.size A).1 → j < (Matrix.size A).2 →
      (Matrix.entry A i j < 0 → Matrix.entry (Matrix.relu A 0) i j = 0) ∧
      (0 ≤ Matrix.entry A i j →
        Matrix.entry (Matrix.relu A 0) i j = Matrix.entry A i j)) ∧
    Matrix.relu A 1 = A := by
  have hentry : ∀ (a : ℚ) i j, i < (Matrix.size A).1 → j < (Matrix.size A).2 →
      Matrix.entry (Matrix.relu A a) i j =
        if Matrix.entry A i j < 0 then Matrix.entry A i j * a
        else Matrix.entry A i j := by
    intro a i j hi hj
    unfold Matrix.relu
    exact Matrix.entry_mk _ _ _ i j hi hj
  refine ⟨Matrix.relu_size A alpha, hentry alpha, ?_, ?_⟩
  · intro i j hi hj
    constructor
    · intro hneg
      rw [hentry 0 i j hi hj, if_pos hneg, mul_zero]
    · intro hpos
      rw [hentry 0 i j hi hj, if_neg (not_lt.mpr hpos)]
  · have hid : Matrix.relu A 1 =
        (List.range (Matrix.size A).1).map fun i =>
          (List.range (Matrix.size A).2).map fun j => Matrix.entry A i j := by
      unfold Matrix.relu
      simp only [mul_one, ite_self]
    rw [hid]
    apply List.ext_getElem?
    intro i
    rw [List.getElem?_map]
    by_cases hi : i < A.length
    · rw [List.getElem?_range (by simpa [Matrix.size_fst] using hi),
        List.getElem?_eq_getElem hi]
      refine congrArg some ?_
      have hget : A.getD i [] = A[i] := List.getD_eq_getElem A [] hi
      have hlen : A[i].length = (Matrix.size A).2 :=
        hA A[i] (List.getElem_mem hi)
      have he : ∀ j : ℕ, Matrix.entry A i j = A[i].getD j 0 := by
        intro j
        unfold Matrix.entry
        rw [hget]
      calc (List.range (Matrix.size A).2).map (fun j => Matrix.entry A i j)
          = (List.range A[i].length).map (fun j => A[i].getD j 0) := by
            rw [hlen]
            exact List.map_congr_left fun j _ => he j
        _ = A[i] := Matrix.map_range_getD A[i]
    · rw [List.getElem?_eq_none (by simpa using Nat.le_of_not_lt hi),
        List.getElem?_eq_none (Nat.le_of_not_lt hi)]
      rfl

/-- Witness for C5 at a concrete matrix and slope. -/
theorem relu_spec_witness :
    Matrix.size (Matrix.relu [[(1 : ℚ), -1]] (1 / 2))
        = Matrix.size [[(1 : ℚ), -1]] ∧
      Matrix.relu [[(1 : ℚ), -1]] 1 = [[(1 : ℚ), -1]] :=
  ⟨(relu_spec [[(1 : ℚ), -1]] (1 / 2) (by decide)).1,
   (relu_spec [[(1 : ℚ), -1]] 1 (by decide)).2.2.2⟩

/-- Claim C4: `ModelData::norm` reads each field of the model's ordered field
list from the input map, substituting `0.0` when the field is absent (a
missing input is never an error), and computes `(x - mean) / std`; it fails
with a missing-stat error carrying the field name exactly when the mean or
std of some listed field is absent from the model's stats. -/
theorem norm_spec (m : ModelData) (input : String → Option ℚ) :
    ((∃ e, m.norm input = .error e) ↔
      ∃ f ∈ m.norm_stats.fields,
        m.norm_stats.std f = none ∨ m.norm_stats.mean f = none) ∧
    (∀ e, m.norm input = .error e → ∃ f ∈ m.norm_stats.fields,
      (m.norm_stats.std f = none ∧ e = .MissingStdData f) ∨
        (m.norm_stats.mean f = none ∧ e = .MissingMeanData f)) ∧
    (∀ L, m.norm input = .ok L → ∃ l, L = Matrix.from_array l ∧
      l.length = m.norm_stats.fields.length ∧
      ∀ (i : Nat) (f : String) (mu sd : ℚ), m.norm_stats.fields[i]? = some f →
        m.norm_stats.mean f = some mu → m.norm_stats.std f = some sd →
        l[i]? = some (((input f).getD 0 - mu) / sd)) := by
  have herr_of : ∀ e, m.norm input = .error e →
      m.normLoop input m.norm_stats.fields = .error e := by
    intro e he
    unfold ModelData.norm at he
    cases hx : m.normLoop input m.norm_stats.fields with
    | error e0 =>
      rw [hx, error_bind] at he
      have h2 : e0 = e := Except.error.inj he
      rw [← h2]
    | ok r =>
      rw [hx, ok_bind] at he
      cases he
  refine ⟨⟨?_, ?_⟩, ?_, ?_⟩
  · rintro ⟨e, he⟩
    obtain ⟨f, hf, herr⟩ :=
      ModelData.normLoop_error m input _ e (herr_of e he)
    rcases ModelData.normField_error m input f e herr with ⟨hs, _⟩ | ⟨hm2, _⟩
    · exact ⟨f, hf, Or.inl hs⟩
    · exact ⟨f, hf, Or.inr hm2⟩
  · rintro ⟨f, hf, hmiss⟩
    rcases ModelData.except_dichotomy (m.normLoop input m.norm_stats.fields)
      with ⟨e, he⟩ | ⟨r, hr⟩
    · exact ⟨e, by unfold ModelData.norm; rw [he, error_bind]⟩
    · exfalso
      obtain ⟨v, hv⟩ :=
        (ModelData.normLoop_ok_exists m input m.norm_stats.fields).mp ⟨r, hr⟩ f hf
      have hsome := (ModelData.normField_ok_iff m input f).mp ⟨v, hv⟩
      rcases hmiss with hs | hm2
      · rw [hs] at hsome; simp at hsome
      · rw [hm2] at hsome; simp at hsome
  · intro e he
    obtain ⟨f, hf, herr⟩ :=
      ModelData.normLoop_error m input _ e (herr_of e he)
    exact ⟨f, hf, ModelData.normField_error m input f e herr⟩
  · intro L hL
    unfold ModelData.norm at hL
    cases hx : m.normLoop input m.norm_stats.fields with
    | error e0 => rw [hx, error_bind] at hL; cases hL
    | ok r =>
      rw [hx, ok_bind] at hL
      cases hL
      refine ⟨r, rfl, ModelData.normLoop_ok_length m input _ r hx, ?_⟩
      intro i f mu sd hif hmu hsd
      obtain ⟨v, hv, hri⟩ := ModelData.normLoop_ok_get m input _ r hx i f hif
      have hval : v = ((input f).getD 0 - mu) / sd := by
        unfold ModelData.normField at hv
        rw [hsd, hmu] at hv
        cases hv
        rfl
      rw [← hval]
      exact hri

/-- Witness for C4: the input map supplies only field `a`; field `b` falls
back to 0 and is normalized to `(0 - 1) / 2` without any error. -/
theorem norm_spec_witness :
    ∃ l, (Matrix.from_array [(1 : ℚ), -(1 / 2)] : Matrix)
        = Matrix.from_array l ∧
      l.length = wModel.norm_stats.fields.length ∧
      ∀ (i : Nat) (f : String) (mu sd : ℚ),
        wModel.norm_stats.fields[i]? = some f →
        wModel.norm_stats.mean f = some mu → wModel.norm_stats.std f = some sd →
        l[i]? = some ((((fun f => if f = "a" then some (3 : ℚ) else none) f).getD 0
          - mu) / sd) :=
  (norm_spec wModel (fun f => if f = "a" then some (3 : ℚ) else none)).2.2
    (Matrix.from_array [(1 : ℚ), -(1 / 2)])
    (by norm_num [ModelData.norm, ModelData.normLoop, ModelData.normField,
      wModel, Matrix.from_array, ok_bind,
      (by decide : ("b" : String) ≠ "a")])

/-- Claim C8: the per-field normalization of `ModelData::norm` yields exactly
0 whenever the input value for a listed field equals the model's mean for
that field. -/
theorem normField_mean_zero (m : ModelData) (input : String → Option ℚ)
    (f : String) (mu sd : ℚ) (hf : f ∈ m.norm_stats.fields)
    (hmu : m.norm_stats.mean f = some mu) (hsd : m.norm_stats.std f = some sd)
    (hin : input f = some mu) :
    m.normField input f = .ok 0 := by
  unfold ModelData.normField
  rw [hsd, hmu, hin]
  simp

/-- Witness for C8 at the concrete model `wModel`. -/
theorem normField_mean_zero_witness :
    ModelData.normField wModel (fun f => if f = "a" then some (1 : ℚ) else none)
        "a" = .ok 0 :=
  normField_mean_zero wModel _ "a" 1 2 (by simp [wModel])
    (by simp [wModel]) (by simp [wModel]) (by simp)

/-- Counterexample for C1: on the all-zero one-dimensional model the raw
forward pass ends with `c[0][0] = 0`, but `ModelData::predict` returns 1
because the source applies `c2[0][0].max(1.0)` before returning. -/
theorem predict_floor_cex :
    ModelData.specPredictRaw wModel [[0]] = .ok 0 ∧
      ModelData.predict wModel [[0]] = .ok 1 := by
  have hr1 : List.range 1 = [0] := rfl
  have hdot : Matrix.dot [[(0 : ℚ)]] [[(0 : ℚ)]] = .ok [[0]] := by
    norm_num [Matrix.dot, Matrix.size, Matrix.entry, hr1]
  have hadd : Matrix.add [[(0 : ℚ)]] [(0 : ℚ)] = .ok [[0]] := by
    norm_num [Matrix.add, Matrix.size, Matrix.entry, hr1]
  have hrelu : Matrix.relu [[(0 : ℚ)]] 0 = [[0]] := by
    norm_num [Matrix.relu, Matrix.size, Matrix.entry, hr1]
  have hentry : Matrix.entry [[(0 : ℚ)]] 0 0 = 0 := by
    norm_num [Matrix.entry]
  constructor
  · unfold ModelData.specPredictRaw
    simp only [wModel, hdot, ok_bind, hadd, hrelu, hentry]
    rfl
  · unfold ModelData.predict
    simp only [wModel, hdot, ok_bind, hadd, hrelu, hentry]
    norm_num
    rfl

/-- Claim C1 (amended): `ModelData::predict` computes the three-layer pipeline
of the spec — `a = relu(dot(x, L0) + L0_bias, alpha)`, `b = relu(dot(a, L1) +
L1_bias, alpha)`, `c = dot(b, L2) + L2_bias` — but returns
`max(c[0][0], 1.0)`: the 1.0 fee-rate floor is applied inside the evaluator,
not left to callers. -/
theorem predict_eq_raw_floor (m : ModelData) (input : Matrix) :
    m.predict input = Except.map (fun c => max c 1) (m.specPredictRaw input) := by
  unfold ModelData.predict ModelData.specPredictRaw
  cases h1 : Matrix.dot input m.weights.l0_kernel with
  | error e => rw [error_bind, error_bind, map_error]
  | ok a1 =>
    rw [ok_bind, ok_bind]
    cases h2 : Matrix.add a1 m.weights.l0_bias with
    | error e => rw [error_bind, error_bind, map_error]
    | ok a2 =>
      rw [ok_bind, ok_bind]
      dsimp only
      cases h3 : Matrix.dot (Matrix.relu a2 m.alpha) m.weights.l1_kernel with
      | error e => rw [error_bind, error_bind, map_error]
      | ok b1 =>
        rw [ok_bind, ok_bind]
        cases h4 : Matrix.add b1 m.weights.l1_bias with
        | error e => rw [error_bind, error_bind, map_error]
        | ok b2 =>
          rw [ok_bind, ok_bind]
          cases h5 : Matrix.dot (Matrix.relu b2 m.alpha) m.weights.l2_kernel with
          | error e => rw [error_bind, error_bind, map_error]
          | ok c1 =>
            rw [ok_bind, ok_bind]
            cases h6 : Matrix.add c1 m.weights.l2_bias with
            | error e => rw [error_bind, error_bind, map_error]
            | ok c2 => rfl

/-- Counterexample for C6: `A = [[1]]` and `B = [[]]` have compatible shapes
for the product ((1,1) by (1,0)); `transpose(dot(A, B))` is the empty matrix,
but `dot(transpose(B), transpose(A))` fails the shape check, because
transposing the one-row zero-column `B` collapses it to the empty matrix of
size (0,0). -/
theorem dot_transpose_cex :
    (Matrix.size [[(1 : ℚ)]]).2 = (Matrix.size ([[]] : Matrix)).1 ∧
    Except.map Matrix._transpose (Matrix.dot [[(1 : ℚ)]] ([[]] : Matrix))
      = .ok ([] : Matrix) ∧
    Matrix.dot (Matrix._transpose ([[]] : Matrix)) (Matrix._transpose [[(1 : ℚ)]])
      = .error (.IncompatibleDotMatrix (0, 0) (1, 1)) :=
  ⟨rfl, rfl, rfl⟩

/-- Claim C6 (amended): for rectangular matrices with compatible shapes the
identity `transpose(dot(A, B)) = dot(transpose(B), transpose(A))` holds
provided `B` is not a nonempty matrix of zero width (i.e. `B` has at least one
column, or `B` is empty); in the excluded degenerate case the right-hand
product fails its shape check (see the counterexample). -/
theorem dot_transpose_amended (A B : Matrix) (hA : Matrix.IsRect A)
    (hB : Matrix.IsRect B) (hc : (Matrix.size A).2 = (Matrix.size B).1)
    (hz : (Matrix.size B).2 ≠ 0 ∨ (Matrix.size B).1 = 0) :
    ∃ C, Matrix.dot A B = .ok C ∧
      Matrix.dot (Matrix._transpose B) (Matrix._transpose A)
        = .ok (Matrix._transpose C) := by
  rcases hz with hm | hW0
  · -- B has at least one column
    have hW' : 0 < (Matrix.size B).1 := by
      rcases B with _ | ⟨r, rs⟩
      · exact absurd rfl hm
      · simp [Matrix.size_fst]
    have hApos : 0 < (Matrix.size A).2 := hc ▸ hW'
    have hH : 0 < (Matrix.size A).1 := by
      rcases A with _ | ⟨r, rs⟩
      · simp [Matrix.size] at hApos
      · simp [Matrix.size_fst]
    have hmpos : 0 < (Matrix.size B).2 := Nat.pos_of_ne_zero hm
    refine ⟨_, Matrix.dot_ok A B hc, ?_⟩
    have hsizeBt : Matrix.size (Matrix._transpose B)
        = ((Matrix.size B).2, (Matrix.size B).1) := by
      unfold Matrix._transpose
      rw [Matrix.size_mk2]
      simp [hmpos]
    have hsizeAt : Matrix.size (Matrix._transpose A)
        = ((Matrix.size A).2, (Matrix.size A).1) := by
      unfold Matrix._transpose
      rw [Matrix.size_mk2]
      simp [hApos]
    have hc2 : (Matrix.size (Matrix._transpose B)).2
        = (Matrix.size (Matrix._transpose A)).1 := by
      rw [hsizeBt, hsizeAt]
      exact hc.symm
    rw [Matrix.dot_ok _ _ hc2]
    refine congrArg Except.ok ?_
    have hsizeC : Matrix.size ((List.range (Matrix.size A).1).map fun i =>
        (List.range (Matrix.size B).2).map fun j =>
          ((List.range (Matrix.size A).2).map fun k =>
            Matrix.entry A i k * Matrix.entry B k j).sum)
        = ((Matrix.size A).1, (Matrix.size B).2) := by
      rw [Matrix.size_mk2]
      simp [hH]
    conv_rhs => unfold Matrix._transpose
    rw [hsizeC, hsizeBt, hsizeAt]
    refine List.map_congr_left fun j hj => ?_
    refine List.map_congr_left fun i hi => ?_
    have hjm : j < (Matrix.size B).2 := List.mem_range.mp hj
    have hiH : i < (Matrix.size A).1 := List.mem_range.mp hi
    have hentryC : Matrix.entry ((List.range (Matrix.size A).1).map fun i =>
        (List.range (Matrix.size B).2).map fun j =>
          ((List.range (Matrix.size A).2).map fun k =>
            Matrix.entry A i k * Matrix.entry B k j).sum) i j
        = ((List.range (Matrix.size A).2).map fun k =>
            Matrix.entry A i k * Matrix.entry B k j).sum :=
      Matrix.entry_mk _ _ _ i j hiH hjm
    rw [hentryC, ← hc]
    refine congrArg List.sum ?_
    refine List.map_congr_left fun k hk => ?_
    have hkW : k < (Matrix.size A).2 := List.mem_range.mp hk
    have hBt : Matrix.entry (Matrix._transpose B) j k = Matrix.entry B k j := by
      unfold Matrix._transpose
      exact Matrix.entry_mk _ _ _ j k hjm (hc ▸ hkW)
    have hAt : Matrix.entry (Matrix._transpose A) k i = Matrix.entry A i k := by
      unfold Matrix._transpose
      exact Matrix.entry_mk _ _ _ k i hkW hiH
    rw [hBt, hAt, mul_comm]
  · -- B is empty
    have hBnil : B = [] := List.length_eq_zero.mp hW0
    subst hBnil
    have hA2 : (Matrix.size A).2 = 0 := by simpa using hc
    refine ⟨(List.range (Matrix.size A).1).map fun _ => [], ?_, ?_⟩
    · rw [Matrix.dot_ok A [] (by simpa using hc)]
      refine congrArg Except.ok (List.map_congr_left fun i _ => ?_)
      rfl
    · have hAt : Matrix._transpose A = [] := by
        unfold Matrix._transpose
        rw [hA2]
        rfl
      have hCt : Matrix._transpose
          ((List.range (Matrix.size A).1).map fun _ => ([] : List ℚ)) = [] := by
        unfold Matrix._transpose
        rw [Matrix.size_mk]
        simp
      rw [hAt, hCt]
      rfl

/-- Witness for the amended C6 at `A = [[1, 2]]`, `B = [[3], [4]]`. -/
theorem dot_transpose_amended_witness :
    ∃ C, Matrix.dot [[(1 : ℚ), 2]] [[3], [4]] = .ok C ∧
      Matrix.dot (Matrix._transpose [[3], [4]])
          (Matrix._transpose [[(1 : ℚ), 2]])
        = .ok (Matrix._transpose C) :=
  dot_transpose_amended [[(1 : ℚ), 2]] [[3], [4]] (by decide) (by decide)
    rfl (Or.inl (by decide))

/-- Claim C7: a candidate model whose layer-0 bias length differs from its
layer-1 bias length is rejected at the offline compilation step with the
hidden-size-mismatch configuration error reporting both found lengths; no
compiled model is emitted (the error branch carries none). -/
theorem into_src_hidden_mismatch (m : buildsrc.ModelData) (name : String)
    (h : m.weights.l0_bias.length ≠ m.weights.l1_bias.length) :
    buildsrc.ModelData.into_src m name =
      .error (.HiddenSizeMismatch m.weights.l0_bias.length
        m.weights.l1_bias.length) := by
  unfold buildsrc.ModelData.into_src
  rw [if_pos h]

/-- Witness for C7: a candidate with layer-0 hidden size 1 and layer-1 hidden
size 2 is rejected. -/
theorem into_src_hidden_mismatch_witness :
    buildsrc.ModelData.into_src
      { norm_stats := { mean := fun _ => none, std := fun _ => none }
        weights :=
          { l0_bias := [0], l0_kernel := [[0]]
            l1_bias := [0, 0], l1_kernel := [[0]]
            l2_bias := [0], l2_kernel := [[0]] }
        fields := ["a"]
        alpha := 0 } "bad"
      = .error (.HiddenSizeMismatch 1 2) :=
  into_src_hidden_mismatch _ "bad" (by decide)

lemma go_stop (m u c : ℚ) (h : u ≤ c) : ∀ n, fee_bucket.go m u c n = [] := by
  intro n
  cases n with
  | zero => rfl
  | succ n => simp [fee_bucket.go, h]

lemma go_succ (m u c : ℚ) (h : ¬ u ≤ c) (n : Nat) :
    fee_bucket.go m u c (n + 1) = c * m :: fee_bucket.go m u (c * m) n := by
  simp [fee_bucket.go, h]

/-- Once the loop reaches its exit within the given fuel (the result is
shorter than the fuel), extra fuel does not change the result. -/
lemma go_stable (m u : ℚ) :
    ∀ (k : Nat) (c : ℚ), (fee_bucket.go m u c k).length < k →
      ∀ n, fee_bucket.go m u c (k + n) = fee_bucket.go m u c k := by
  intro k
  induction k with
  | zero => intro c h n; exact absurd h (Nat.not_lt_zero _)
  | succ k ih =>
    intro c h n
    by_cases hc : u ≤ c
    · rw [go_stop m u c hc, go_stop m u c hc]
    · have h1 : k + 1 + n = (k + n) + 1 := by omega
      rw [h1, go_succ m u c hc (k + n), go_succ m u c hc k]
      refine congrArg (List.cons (c * m)) ?_
      apply ih
      rw [go_succ m u c hc k] at h
      simpa using h

lemma create_length17 :
    (fee_bucket.create_buckets_limits 50 500 17).length = 16 := by
  norm_num [fee_bucket.create_buckets_limits, fee_bucket.go]

lemma get_length (limits rates : List ℚ) :
    (fee_bucket.get limits rates).length = limits.length := by
  unfold fee_bucket.get
  have h : ∀ (rs : List ℚ) (acc : List Nat),
      (rs.foldl (fun buckets rate =>
        let index :=
          match limits.findIdx? (fun e => decide (rate < e)) with
          | some i => i
          | none => limits.length - 1
        buckets.set index (buckets.getD index 0 + 1)) acc).length
        = acc.length := by
    intro rs
    induction rs with
    | nil => intro acc; rfl
    | cons r t ih => intro acc; rw [List.foldl_cons, ih]; simp
  rw [h rates _]
  simp

lemma mapM_option_isSome {β : Type} (F : Nat → Option β) :
    ∀ l : List Nat, (l.mapM F).isSome ↔ ∀ i ∈ l, (F i).isSome := by
  intro l
  induction l with
  | nil => rw [List.mapM_nil]; simp
  | cons a t ih =>
    rw [List.mapM_cons]
    constructor
    · intro h i hi
      rcases List.mem_cons.mp hi with rfl | hmem
      · cases ha : F i with
        | none => rw [ha] at h; simp at h
        | some b => simp
      · cases ha : F a with
        | none => rw [ha] at h; simp at h
        | some b =>
          rw [ha] at h
          cases ht : t.mapM F with
          | none => rw [ht] at h; simp at h
          | some bs => exact (ih.mp (by rw [ht]; rfl)) i hmem
    · intro h
      obtain ⟨b, hb⟩ :=
        Option.isSome_iff_exists.mp (h a (List.mem_cons_self a t))
      have hts : (t.mapM F).isSome :=
        ih.mpr fun i hi => h i (List.mem_cons_of_mem a hi)
      obtain ⟨bs, hbs⟩ := Option.isSome_iff_exists.mp hts
      rw [hb, hbs]
      rfl

lemma bucketInputs_isSome_iff (bs : List Nat) :
    (FeeModel.bucketInputs bs).isSome ↔ 16 ≤ bs.length := by
  unfold FeeModel.bucketInputs
  rw [mapM_option_isSome]
  constructor
  · intro h
    have h15 := h 15 (List.mem_range.mpr (by norm_num))
    by_contra hc
    rw [List.getElem?_eq_none (by omega)] at h15
    simp at h15
  · intro h i hi
    have hi16 := List.mem_range.mp hi
    rw [List.getElem?_eq_getElem (by omega)]
    rfl

/-- Claim C10: reading the sixteen bucket features succeeds exactly when the
supplied bucket slice has at least 16 entries (otherwise the Rust index
panics); the `estimate` entry point always satisfies this, because the
histogram built from limits with 50 percent increments and upper limit 500.0
has exactly 16 buckets for every input fee-rate sequence. -/
theorem estimate_buckets_safe :
    (∀ bs : List Nat, (FeeModel.bucketInputs bs).isSome ↔ 16 ≤ bs.length) ∧
    (∀ fuel, 17 ≤ fuel →
      (fee_bucket.create_buckets_limits 50 500 fuel).length = 16) ∧
    (∀ fuel, 17 ≤ fuel → ∀ rates : List ℚ,
      (FeeModel.bucketInputs
        (fee_bucket.get (fee_bucket.create_buckets_limits 50 500 fuel)
          rates)).isSome) := by
  have hlen : ∀ fuel, 17 ≤ fuel →
      (fee_bucket.create_buckets_limits 50 500 fuel).length = 16 := by
    intro fuel hfuel
    obtain ⟨n, rfl⟩ : ∃ n, fuel = 17 + n := ⟨fuel - 17, by omega⟩
    have h17 := create_length17
    unfold fee_bucket.create_buckets_limits at h17 ⊢
    rw [go_stable _ _ 17 1 (by omega) n]
    exact h17
  refine ⟨bucketInputs_isSome_iff, hlen, ?_⟩
  intro fuel hfuel rates
  rw [bucketInputs_isSome_iff, get_length, hlen fuel hfuel]

/-- Witness for C10 at fuel 17 and a singleton rate list. -/
theorem estimate_buckets_safe_witness :
    (FeeModel.bucketInputs
      (fee_bucket.get (fee_bucket.create_buckets_limits 50 500 17)
        [(1 : ℚ)])).isSome :=
  estimate_buckets_safe.2.2 17 (by norm_num) [(1 : ℚ)]

/-- Claim C2 evidence: a height-1 matrix does not survive the round trip.
The serializer emits a one-element sequence containing the row sequence,
while the height-1 decoder demands a flat sequence of scalars and hits a
serde type error on the nested sequence. Evaluated at the 1-by-1 matrix with
buffer `[1]`. -/
theorem serde_roundtrip_height1_fails :
    serde.serializeMatrix 1 1 (⟨[(1 : ℚ)]⟩ : serde.SMatrix ℚ)
        = .seq [.seq [.num 1]] ∧
      serde.visit_seq 1 1 (serde.serializeMatrix 1 1 (⟨[(1 : ℚ)]⟩ : serde.SMatrix ℚ))
        = .error .typeError :=
  ⟨rfl, rfl⟩

end BitcoinFeeModel
